import Mathlib

/-!
Shallow embedding of the casper-yield AI agent's optimization pipeline
(`src/ai-agent/src`): the data processor (`data/processor.py`), the
portfolio rebalancer (`optimizer/rebalancer.py`), the risk analyzer
(`optimizer/risk_analyzer.py`), the yield predictor
(`optimizer/predictor.py`), down to the agent state and the HTTP
allocation-update operation (`optimizer/agent.py`, `api/server.py`).

Conventions of the embedding:
* Python floats are modelled as rationals (`ℚ`); float literals such as
  `0.7` become the corresponding rationals (`7/10`).
* `numpy` arrays become `List ℚ`, matrices become `List (List ℚ)`.
* `np.sqrt` is an external irrational operation; it is modelled by an
  arbitrary function parameter `msqrt : ℚ → ℚ` that every theorem
  quantifies over, since no claim depends on its values beyond how the
  code combines them.
* The `scipy.optimize.minimize` SLSQP solves are external native calls;
  each solve is modelled by an oracle value `Option (List ℚ)`:
  `some x` stands for a run whose `result.success` is true with
  `result.x = x`, `none` for a non-convergent run.  The surrounding
  Python control flow (fallbacks, clipping, renormalization) is embedded
  faithfully.
* Python `dict`s keyed by strategy id become association lists
  `List (String × ℚ)`; `d.get(k, 0)` becomes `(d.lookup k).getD 0`.
* Raising an exception is modelled with `Except String`.
-/

namespace CasperYield

/-- ProcessedStrategy dataclass from `src/data/processor.py`. -/
structure ProcessedStrategy where
  strategy_id : String
  name : String
  expected_return : ℚ
  volatility : ℚ
  risk_score : ℚ
  tvl_score : ℚ
  age_score : ℚ
  sharpe_ratio : ℚ
  current_allocation : ℚ
  min_allocation : ℚ
  max_allocation : ℚ
deriving DecidableEq

/-- OptimizationInput dataclass from `src/data/processor.py`
(`total_amount` is a `Decimal` in the source, also a rational here). -/
structure OptimizationInput where
  strategies : List ProcessedStrategy
  correlation_matrix : List (List ℚ)
  risk_free_rate : ℚ
  total_amount : ℚ
deriving DecidableEq

/-- AllocationResult dataclass from `src/optimizer/rebalancer.py`; the
wall-clock `timestamp` string field is not modelled. -/
structure AllocationResult where
  strategy_allocations : List (String × ℚ)
  expected_return : ℚ
  expected_volatility : ℚ
  sharpe_ratio : ℚ
  optimization_method : String
deriving DecidableEq

/-- Configuration slice of `PortfolioRebalancer.__init__`
(`self.method`, `self.min_rebalance_threshold`). -/
structure PortfolioRebalancer where
  method : String := "max_sharpe"
  min_rebalance_threshold : ℚ := 1/20
deriving DecidableEq

/-- Oracle for the five distinct `scipy.optimize.minimize` call sites of
`rebalancer.py`: `some x` models a successful solve returning `x`,
`none` a non-convergent one.  `meanVarianceFB` is the nested max-Sharpe
solve performed when the mean-variance solve fails. -/
structure SolverOracle where
  maxSharpe : Option (List ℚ)
  minVariance : Option (List ℚ)
  riskParity : Option (List ℚ)
  meanVariance : Option (List ℚ)
  meanVarianceFB : Option (List ℚ)

/-- `np.clip(x, lo, hi)` on scalars: `np.minimum(hi, np.maximum(x, lo))`. -/
def npClip (x lo hi : ℚ) : ℚ := min (max x lo) hi

/-- Componentwise `np.clip` of a weight vector against bound vectors. -/
def clipList : List ℚ → List ℚ → List ℚ → List ℚ
  | x :: xs, lo :: los, hi :: his => npClip x lo hi :: clipList xs los his
  | _, _, _ => []

/-- `w / w.sum()`: divide every component by the vector sum (in the
source this is float division; a zero sum yields non-finite floats
there, and the theorems about it assume a nonzero sum). -/
def renorm (w : List ℚ) : List ℚ := w.map (fun x => x / w.sum)

/-- The warm-start vector `x0` shared by `_optimize_max_sharpe`,
`_optimize_min_variance` and `_optimize_mean_variance`:
`np.ones(n)/n`, clipped to the bounds, renormalized. -/
def startEqual (n : ℕ) (minW maxW : List ℚ) : List ℚ :=
  renorm (clipList (List.replicate n ((1 : ℚ) / n)) minW maxW)

/-- The warm-start vector of `_optimize_risk_parity`: `1/volatilities`,
clipped to the bounds, renormalized.  (In the source a zero volatility
makes `1/v` infinite; the theorems about this vector assume positive
volatilities.) -/
def startInvVol (vols minW maxW : List ℚ) : List ℚ :=
  renorm (clipList (vols.map (fun v => 1 / v)) minW maxW)

/-- `PortfolioRebalancer._optimize_max_sharpe`: the objective and
covariance feed only the external SLSQP solve (`res`); on success the
solver's vector is returned as is, otherwise the equal-weight start. -/
def optimizeMaxSharpe (returns : List ℚ) (_covMatrix : List (List ℚ))
    (minW maxW : List ℚ) (_riskFreeRate : ℚ) (res : Option (List ℚ)) : List ℚ :=
  match res with
  | some x => x
  | none => startEqual returns.length minW maxW

/-- `PortfolioRebalancer._optimize_min_variance` (`n = len(min_weights)`
in the source). -/
def optimizeMinVariance (_covMatrix : List (List ℚ))
    (minW maxW : List ℚ) (res : Option (List ℚ)) : List ℚ :=
  match res with
  | some x => x
  | none => startEqual minW.length minW maxW

/-- `PortfolioRebalancer._optimize_risk_parity`: on failure the
inverse-volatility start is returned. -/
def optimizeRiskParity (vols : List ℚ) (_correlation : List (List ℚ))
    (minW maxW : List ℚ) (res : Option (List ℚ)) : List ℚ :=
  match res with
  | some x => x
  | none => startInvVol vols minW maxW

/-- `PortfolioRebalancer._optimize_mean_variance`: on failure it falls
back to `_optimize_max_sharpe` with risk-free rate `0.02` (whose own
solve is modelled by `resFB`). -/
def optimizeMeanVariance (returns : List ℚ) (covMatrix : List (List ℚ))
    (minW maxW : List ℚ) (_targetReturn : ℚ)
    (res resFB : Option (List ℚ)) : List ℚ :=
  match res with
  | some x => x
  | none => optimizeMaxSharpe returns covMatrix minW maxW (2/100) resFB

/-- Dot product `np.dot` of two vectors. -/
def dot (a b : List ℚ) : ℚ := (List.zipWith (· * ·) a b).sum

/-- `np.dot(m, v)` for a matrix and a vector. -/
def matVec (m : List (List ℚ)) (v : List ℚ) : List ℚ :=
  m.map (fun row => dot row v)

/-- `np.outer(volatilities, volatilities) * correlation`:
`cov[i][j] = vol_i * vol_j * corr[i][j]`. -/
def covarianceMatrix (vols : List ℚ) (corr : List (List ℚ)) : List (List ℚ) :=
  List.zipWith (fun vi row => List.zipWith (fun vj c => vi * vj * c) vols row) vols corr

/-- `np.mean` of a vector. -/
def listMean (l : List ℚ) : ℚ := l.sum / l.length

/-- The method-dispatch block of `PortfolioRebalancer.optimize`
(lines 92-115 of `rebalancer.py`), including the clipped equal-weight
default for an unknown method string. -/
def chooseWeights (method : String) (returns vols minW maxW : List ℚ)
    (correlation covMatrix : List (List ℚ)) (riskFreeRate : ℚ)
    (oracle : SolverOracle) : List ℚ :=
  if method = "max_sharpe" then
    optimizeMaxSharpe returns covMatrix minW maxW riskFreeRate oracle.maxSharpe
  else if method = "min_variance" then
    optimizeMinVariance covMatrix minW maxW oracle.minVariance
  else if method = "risk_parity" then
    optimizeRiskParity vols correlation minW maxW oracle.riskParity
  else if method = "mean_variance" then
    optimizeMeanVariance returns covMatrix minW maxW (listMean returns)
      oracle.meanVariance oracle.meanVarianceFB
  else
    renorm (clipList (List.replicate returns.length ((1 : ℚ) / returns.length)) minW maxW)

/-- `PortfolioRebalancer.optimize`.  `methodArg` models the optional
`method` argument (`method = method or self.method`); `oracle` the
solver outcomes; `msqrt` models `np.sqrt`. -/
def optimize (rb : PortfolioRebalancer) (inp : OptimizationInput)
    (methodArg : Option String) (oracle : SolverOracle)
    (msqrt : ℚ → ℚ) : AllocationResult :=
  let method := methodArg.getD rb.method
  let strategies := inp.strategies
  let n := strategies.length
  if n = 0 then
    { strategy_allocations := [], expected_return := 0,
      expected_volatility := 0, sharpe_ratio := 0,
      optimization_method := method }
  else
    let returns := strategies.map (·.expected_return)
    let vols := strategies.map (·.volatility)
    let minW := strategies.map (·.min_allocation)
    let maxW := strategies.map (·.max_allocation)
    let covMatrix := covarianceMatrix vols inp.correlation_matrix
    let weights := chooseWeights method returns vols minW maxW
      inp.correlation_matrix covMatrix inp.risk_free_rate oracle
    let portfolioReturn := dot weights returns
    let portfolioVariance := dot weights (matVec covMatrix weights)
    let portfolioVolatility := msqrt portfolioVariance
    let sharpe := if portfolioVolatility > 0 then
        (portfolioReturn - inp.risk_free_rate) / portfolioVolatility
      else 0
    { strategy_allocations :=
        List.zipWith (fun s w => (s.strategy_id, w)) strategies weights,
      expected_return := portfolioReturn,
      expected_volatility := portfolioVolatility,
      sharpe_ratio := sharpe,
      optimization_method := method }

/-! ### Data processor (`src/data/processor.py`) -/

/-- `DataProcessor._filter_strategies`, parameterized by the configured
volatility ceiling (`risk.max_volatility`, default `0.30`); each branch
mirrors one `continue` of the Python loop (the per-exclusion `logger.info`
diagnostic events have no effect on the result and are not modelled). -/
def filterStrategies (maxVolatility : ℚ) : List ProcessedStrategy → List ProcessedStrategy
  | [] => []
  | s :: rest =>
    if s.volatility > maxVolatility then filterStrategies maxVolatility rest
    else if s.tvl_score ≤ 0 then filterStrategies maxVolatility rest
    else if s.age_score < 1/4 then filterStrategies maxVolatility rest
    else s :: filterStrategies maxVolatility rest

/-- Helper for `pyWords`: scans the characters, accumulating the
current word (reversed); a word is emitted at each whitespace run and
at the end. -/
def pyWordsAux (cur : List Char) : List Char → List (List Char)
  | [] => if cur = [] then [] else [cur.reverse]
  | c :: cs =>
    if c.isWhitespace then
      if cur = [] then pyWordsAux [] cs
      else cur.reverse :: pyWordsAux [] cs
    else pyWordsAux (c :: cur) cs

/-- Python `str.split()` with no argument: the maximal runs of
non-whitespace characters (words are kept as character lists so that
everything computes structurally). -/
def pyWords (s : String) : List (List Char) := pyWordsAux [] s.data

/-- `name.split()[0]` can raise `IndexError` when the name has no
non-whitespace word; `none` models that exception. -/
def firstWord (s : String) : Option (List Char) := (pyWords s).head?

/-- Sequential effectful map over a list in the `Except` monad,
mirroring a Python loop that can raise at any element: the first raise
aborts the whole computation. -/
def exceptMap (f : α → Except String β) : List α → Except String (List β)
  | [] => .ok []
  | a :: as =>
    match f a with
    | .error e => .error e
    | .ok b =>
      match exceptMap f as with
      | .error e => .error e
      | .ok bs => .ok (b :: bs)

/-- One entry of the heuristic correlation matrix
(`DataProcessor.build_correlation_matrix`, lines 159-171): diagonal `1`
from `np.eye`; off-diagonal `0.7` when `s1.name.split()[0] ==
s2.name.split()[0]`, else `0.3`; `IndexError` when a compared name has
no word. -/
def corrEntry (s1 s2 : ProcessedStrategy) (i j : ℕ) : Except String ℚ :=
  if i = j then .ok 1
  else
    match firstWord s1.name, firstWord s2.name with
    | some w1, some w2 => .ok (if w1 = w2 then 7/10 else 3/10)
    | _, _ => .error "IndexError: list index out of range"

/-- The heuristic path of `DataProcessor.build_correlation_matrix`
(taken when no aligned historical data is available). -/
def buildCorrelationHeuristic (strategies : List ProcessedStrategy) :
    Except String (List (List ℚ)) :=
  exceptMap (fun p =>
      exceptMap (fun q => corrEntry p.2 q.2 p.1 q.1) strategies.enum)
    strategies.enum

/-- The value an error-free heuristic entry takes (used to describe the
matrix produced when every name has a first word). -/
def corrVal (s1 s2 : ProcessedStrategy) (i j : ℕ) : ℚ :=
  if i = j then 1
  else if firstWord s1.name = firstWord s2.name then 7/10 else 3/10

/-! ### Risk analyzer (`src/optimizer/risk_analyzer.py`) -/

/-- RiskAssessment dataclass; the free-text `warnings` and
`recommendations` lists are diagnostics and are not modelled. -/
structure RiskAssessment where
  strategy_id : String
  overall_risk_score : ℚ
  risk_level : String
  components : List (String × ℚ)
deriving DecidableEq

/-- `RiskAnalyzer._calculate_volatility_risk`: `min(25, volatility*50)`. -/
def calcVolatilityRisk (volatility : ℚ) : ℚ := min 25 (volatility * 50)

/-- The `type_multipliers` lookup of
`RiskAnalyzer._calculate_smart_contract_risk` (default `1.0`). -/
def typeMultiplier (t : List Char) : ℚ :=
  if t = "staking".data then 3/5
  else if t = "lending".data then 4/5
  else if t = "liquidity".data then 1
  else 1

/-- `strategy.name.lower().split()[0] if strategy.name else "unknown"`:
an empty name gives `"unknown"`; a nonempty all-whitespace name raises
`IndexError`. -/
def strategyType (name : String) : Except String (List Char) :=
  if name = "" then .ok "unknown".data
  else
    match (pyWordsAux [] (name.data.map Char.toLower)).head? with
    | some w => .ok w
    | none => .error "IndexError: list index out of range"

/-- `RiskAnalyzer._calculate_smart_contract_risk`:
`25*(1 - age_score) * type_multiplier`. -/
def calcSmartContractRisk (s : ProcessedStrategy) : Except String ℚ :=
  match strategyType s.name with
  | .error e => .error e
  | .ok t => .ok (25 * (1 - s.age_score) * typeMultiplier t)

/-- `RiskAnalyzer._calculate_liquidity_risk`: `25*(1 - tvl_score)`. -/
def calcLiquidityRisk (tvl_score : ℚ) : ℚ := 25 * (1 - tvl_score)

/-- `RiskAnalyzer._calculate_strategy_specific_risk`:
`min(25, risk_score*25 + bonus)`, bonus `5` above 50% APY, `2` above
30%. -/
def calcStrategySpecificRisk (s : ProcessedStrategy) : ℚ :=
  min 25 (s.risk_score * 25 +
    (if s.expected_return > 1/2 then 5
     else if s.expected_return > 3/10 then 2 else 0))

/-- `RiskAnalyzer._get_risk_level`. -/
def getRiskLevel (risk_score : ℚ) : String :=
  if risk_score < 25 then "low"
  else if risk_score < 50 then "medium"
  else if risk_score < 75 then "high"
  else "very_high"

/-- `RiskAnalyzer.assess_strategy_risk`: the four components in the
order the source inserts them into the `components` dict; the overall
score is their sum; the smart-contract component can raise on an
all-whitespace name. -/
def assessStrategyRisk (s : ProcessedStrategy) : Except String RiskAssessment :=
  let volRisk := calcVolatilityRisk s.volatility
  match calcSmartContractRisk s with
  | .error e => .error e
  | .ok scRisk =>
    let liqRisk := calcLiquidityRisk s.tvl_score
    let specificRisk := calcStrategySpecificRisk s
    let overall := volRisk + scRisk + liqRisk + specificRisk
    .ok { strategy_id := s.strategy_id,
          overall_risk_score := overall,
          risk_level := getRiskLevel overall,
          components := [("volatility_risk", volRisk),
                         ("smart_contract_risk", scRisk),
                         ("liquidity_risk", liqRisk),
                         ("strategy_specific_risk", specificRisk)] }

/-! ### Yield predictor (`src/optimizer/predictor.py`) -/

/-- YieldPrediction dataclass. -/
structure YieldPrediction where
  strategy_id : String
  current_apy : ℚ
  predicted_apy_7d : ℚ
  predicted_apy_30d : ℚ
  confidence : ℚ
  trend : String
  factors : List (String × ℚ)
deriving DecidableEq

/-- `pandas` `Series.tail(k)`: the last `k` entries (all when fewer). -/
def lastN (k : ℕ) (l : List ℚ) : List ℚ := l.drop (l.length - k)

/-- `YieldPredictor._determine_trend` (`threshold = 0.005`; relative
changes are `0` when the current value is not positive). -/
def determineTrend (current pred7 pred30 : ℚ) : String :=
  let threshold : ℚ := 5/1000
  let shortTermChange := if current > 0 then (pred7 - current) / current else 0
  let longTermChange := if current > 0 then (pred30 - current) / current else 0
  if shortTermChange > threshold ∧ longTermChange > threshold then "up"
  else if shortTermChange < -threshold ∧ longTermChange < -threshold then "down"
  else "stable"

/-- `YieldPredictor._simple_prediction` over the time-ordered `apy`
column (last element = current value): mean reversion toward the 7-day
moving average and the overall mean, confidence `0.5`. -/
def simplePrediction (strategyId : String) (apys : List ℚ) : YieldPrediction :=
  if apys.length = 0 then
    { strategy_id := strategyId, current_apy := 0, predicted_apy_7d := 0,
      predicted_apy_30d := 0, confidence := 0, trend := "stable", factors := [] }
  else
    let current := apys.getLastD 0
    let ma7 := listMean (lastN 7 apys)
    let ma30 := listMean apys
    let pred7 := (current + ma7) / 2
    let pred30 := (current + ma30) / 2
    { strategy_id := strategyId, current_apy := current,
      predicted_apy_7d := pred7, predicted_apy_30d := pred30,
      confidence := 1/2, trend := determineTrend current pred7 pred30,
      factors := [("moving_average", 1)] }

/-- `YieldPredictor.predict`: when `_is_trained` is false it falls back
to `_simple_prediction`; the trained path (sklearn ensemble inference)
is external and modelled by the `trainedPath` oracle. -/
def predict (isTrained : Bool)
    (trainedPath : String → List ℚ → YieldPrediction)
    (strategyId : String) (apys : List ℚ) : YieldPrediction :=
  if isTrained then trainedPath strategyId apys
  else simplePrediction strategyId apys

/-! ### Agent state and the allocation-update operation
(`src/optimizer/agent.py`, `src/api/server.py`) -/

/-- AgentState dataclass from `src/optimizer/agent.py`. -/
structure AgentState where
  is_running : Bool
  last_optimization : Option String
  last_data_fetch : Option String
  current_allocations : List (String × ℚ)
  optimization_count : ℕ
  error_count : ℕ
deriving DecidableEq

/-- `YieldOptimizerAgent.update_allocations`: unconditionally replaces
`state.current_allocations`. -/
def agentUpdateAllocations (st : AgentState) (newAllocations : List (String × ℚ)) :
    AgentState :=
  { st with current_allocations := newAllocations }

/-- The `POST /allocation` handler `update_allocation` of
`src/api/server.py`: validates that the weights sum to `[0.99, 1.01]`
before the agent state is touched, raising `HTTP 400` (modelled as
`Except.error`) otherwise. -/
def updateAllocationEndpoint (st : AgentState) (allocations : List (String × ℚ)) :
    Except String AgentState :=
  let total := (allocations.map Prod.snd).sum
  if ¬(99/100 ≤ total ∧ total ≤ 101/100) then
    .error "Allocations must sum to 1.0"
  else
    .ok (agentUpdateAllocations st allocations)

/-- One request against the endpoint, observed from outside: the
resulting agent state (unchanged when the handler raised) and whether
the update was accepted. -/
def runUpdateAllocation (st : AgentState) (allocations : List (String × ℚ)) :
    AgentState × Bool :=
  match updateAllocationEndpoint st allocations with
  | .ok st2 => (st2, true)
  | .error _ => (st, false)

/-! ### Rebalance recommendation (`rebalancer.py` lines 411-511) -/

/-- One entry of the `trades` list built by
`PortfolioRebalancer.recommend_rebalance`. -/
structure Trade where
  strategy_id : String
  action : String
  current_weight : ℚ
  target_weight : ℚ
  weight_change : ℚ
  amount_usd : ℚ
deriving DecidableEq

/-- RebalanceRecommendation dataclass; the free-text `reason` string is
not modelled. -/
structure RebalanceRecommendation where
  current_allocations : List (String × ℚ)
  target_allocations : List (String × ℚ)
  trades : List Trade
  expected_improvement : List (String × ℚ)
  should_rebalance : Bool
deriving DecidableEq

/-- `d.get(key, 0)` on an allocation dict. -/
def getW (d : List (String × ℚ)) (key : String) : ℚ := (d.lookup key).getD 0

/-- The trade record appended for a strategy whose weight difference
exceeds the threshold. -/
def mkTrade (cur target : List (String × ℚ)) (totalValue : ℚ)
    (s : ProcessedStrategy) : Trade :=
  let c := getW cur s.strategy_id
  let t := getW target s.strategy_id
  { strategy_id := s.strategy_id,
    action := if t - c > 0 then "increase" else "decrease",
    current_weight := c, target_weight := t, weight_change := t - c,
    amount_usd := |t - c| * totalValue }

/-- The trade-building loop of `recommend_rebalance` (lines 475-490),
before sorting. -/
def buildTrades (cur target : List (String × ℚ)) (threshold totalValue : ℚ) :
    List ProcessedStrategy → List Trade
  | [] => []
  | s :: rest =>
    if |getW target s.strategy_id - getW cur s.strategy_id| > threshold then
      mkTrade cur target totalValue s ::
        buildTrades cur target threshold totalValue rest
    else buildTrades cur target threshold totalValue rest

/-- Whether a trade is an increase (`x["action"] == "increase"`). -/
def tradeInc (t : Trade) : Bool := t.action == "increase"

/-- The sort order induced by the Python key
`(x["action"] == "increase", -abs(x["weight_change"]))` compared
lexicographically: decreases first, larger magnitudes first. -/
def tradeLe (a b : Trade) : Prop :=
  (tradeInc a = false ∧ tradeInc b = true) ∨
    (tradeInc a = tradeInc b ∧ |b.weight_change| ≤ |a.weight_change|)

instance : DecidableRel tradeLe := fun a b => by
  unfold tradeLe; infer_instance

instance : IsTotal Trade tradeLe := by
  constructor
  intro a b
  by_cases hab : tradeInc a = tradeInc b
  · rcases le_total |b.weight_change| |a.weight_change| with h | h
    · exact Or.inl (Or.inr ⟨hab, h⟩)
    · exact Or.inr (Or.inr ⟨hab.symm, h⟩)
  · cases ha : tradeInc a <;> cases hb : tradeInc b
    · simp [ha, hb] at hab
    · exact Or.inl (Or.inl ⟨ha, hb⟩)
    · exact Or.inr (Or.inl ⟨hb, ha⟩)
    · simp [ha, hb] at hab

instance : IsTrans Trade tradeLe := by
  constructor
  rintro a b c (⟨ha, hb⟩ | ⟨hab, hba⟩) (⟨hb2, hc⟩ | ⟨hbc, hcb⟩)
  · rw [hb] at hb2; cases hb2
  · exact Or.inl ⟨ha, hbc ▸ hb⟩
  · exact Or.inl ⟨hab.trans hb2, hc⟩
  · exact Or.inr ⟨hab.trans hbc, hcb.trans hba⟩

/-- `PortfolioRebalancer.recommend_rebalance`.  The target allocation is
the full `optimize` result (method argument omitted, so the configured
method applies); the trade list is built and sorted with Python's
stable `list.sort`, modelled by `insertionSort` over the same key
order. -/
def recommendRebalance (rb : PortfolioRebalancer)
    (currentAllocations : List (String × ℚ)) (inp : OptimizationInput)
    (totalValue : ℚ) (oracle : SolverOracle) (msqrt : ℚ → ℚ) :
    RebalanceRecommendation :=
  let optimal := optimize rb inp none oracle msqrt
  let targetAllocations := optimal.strategy_allocations
  let strategies := inp.strategies
  if strategies.length = 0 then
    { current_allocations := currentAllocations, target_allocations := [],
      trades := [], expected_improvement := [], should_rebalance := false }
  else
    let returns := strategies.map (·.expected_return)
    let vols := strategies.map (·.volatility)
    let covMatrix := covarianceMatrix vols inp.correlation_matrix
    let currentWeights := strategies.map (fun s => getW currentAllocations s.strategy_id)
    let s := currentWeights.sum
    let currentMetrics : ℚ × ℚ × ℚ :=
      if s > 0 then
        let cw := currentWeights.map (fun x => x / s)
        let cret := dot cw returns
        let cvol := msqrt (dot cw (matVec covMatrix cw))
        let csharpe := if cvol > 0 then (cret - inp.risk_free_rate) / cvol else 0
        (cret, cvol, csharpe)
      else (0, 0, 0)
    let returnImprovement := optimal.expected_return - currentMetrics.1
    let volatilityChange := optimal.expected_volatility - currentMetrics.2.1
    let sharpeImprovement := optimal.sharpe_ratio - currentMetrics.2.2
    let trades := List.insertionSort tradeLe
      (buildTrades currentAllocations targetAllocations
        rb.min_rebalance_threshold totalValue strategies)
    { current_allocations := currentAllocations,
      target_allocations := targetAllocations,
      trades := trades,
      expected_improvement :=
        [("return_improvement", returnImprovement),
         ("volatility_change", volatilityChange),
         ("sharpe_improvement", sharpeImprovement)],
      should_rebalance :=
        if trades.length > 0 ∧ (sharpeImprovement > 1/20 ∨ returnImprovement > 1/100)
        then true else false }

/-! ### Efficient frontier (`rebalancer.py` lines 352-409) -/

/-- One point returned by `generate_efficient_frontier` (the Python dict
with keys `return`, `volatility`, `sharpe_ratio`, `weights`; `return`
is a Lean keyword, so the field is `ret`). -/
structure FrontierPoint where
  ret : ℚ
  volatility : ℚ
  sharpe_ratio : ℚ
  weights : List (String × ℚ)
deriving DecidableEq

/-- `np.min` of a nonempty vector (`0` for the empty one, unreachable
in the guarded source path). -/
def npMin : List ℚ → ℚ
  | [] => 0
  | x :: xs => xs.foldl min x

/-- `np.max` of a nonempty vector. -/
def npMax : List ℚ → ℚ
  | [] => 0
  | x :: xs => xs.foldl max x

/-- `np.linspace(a, b, k)`: `k` evenly spaced samples from `a` to `b`
inclusive. -/
def linspace (a b : ℚ) (k : ℕ) : List ℚ :=
  if k = 0 then []
  else if k = 1 then [a]
  else (List.range k).map (fun (i : ℕ) => a + (b - a) * (i : ℚ) / ((k : ℚ) - 1))

/-- The body of the frontier loop at one target return: a mean-variance
solve (with its max-Sharpe fallback chain) and the point's metrics. -/
def frontierPoint (inp : OptimizationInput)
    (mvSolve msSolve : ℚ → Option (List ℚ)) (msqrt : ℚ → ℚ)
    (target : ℚ) : FrontierPoint :=
  let strategies := inp.strategies
  let returns := strategies.map (·.expected_return)
  let vols := strategies.map (·.volatility)
  let minW := strategies.map (·.min_allocation)
  let maxW := strategies.map (·.max_allocation)
  let covMatrix := covarianceMatrix vols inp.correlation_matrix
  let weights := optimizeMeanVariance returns covMatrix minW maxW target
    (mvSolve target) (msSolve target)
  let portfolioReturn := dot weights returns
  let portfolioVol := msqrt (dot weights (matVec covMatrix weights))
  { ret := portfolioReturn,
    volatility := portfolioVol,
    sharpe_ratio := if portfolioVol > 0 then
        (portfolioReturn - inp.risk_free_rate) / portfolioVol
      else 0,
    weights := List.zipWith (fun s w => (s.strategy_id, w)) strategies weights }

/-- `PortfolioRebalancer.generate_efficient_frontier`.  The per-target
`try`/`except` of the source can only be triggered by an unexpected
exception; solver non-convergence is absorbed by the fallback chain
inside `_optimize_mean_variance`, and the remaining arithmetic is
total, so every target produces a point. -/
def generateEfficientFrontier (inp : OptimizationInput) (numPoints : ℕ)
    (mvSolve msSolve : ℚ → Option (List ℚ)) (msqrt : ℚ → ℚ) :
    List FrontierPoint :=
  if inp.strategies.length = 0 then []
  else
    let returns := inp.strategies.map (·.expected_return)
    let targets := linspace (npMin returns) (npMax returns) numPoints
    targets.map (frontierPoint inp mvSolve msSolve msqrt)

/-- Total accessor for a matrix entry (out-of-range reads default to
`[]`/`0`; the theorems below only use it in range). -/
def matEntry (M : List (List ℚ)) (i j : ℕ) : ℚ := (M.getD i []).getD j 0

/-! ### Concrete instances used by witnesses and counterexamples -/

/-- A staking strategy with bounds `[0, 1]`. -/
def sA : ProcessedStrategy :=
  { strategy_id := "a", name := "staking a", expected_return := 8/100,
    volatility := 1, risk_score := 1/5, tvl_score := 1, age_score := 1,
    sharpe_ratio := 1, current_allocation := 0, min_allocation := 0,
    max_allocation := 1 }

/-- A lending strategy with bounds `[3/5, 1]` (feasible together with
`sA`: the minimums sum to `3/5 ≤ 1` and the maximums to `2 ≥ 1`). -/
def sB : ProcessedStrategy :=
  { strategy_id := "b", name := "lending b", expected_return := 12/100,
    volatility := 2, risk_score := 1/5, tvl_score := 1, age_score := 1,
    sharpe_ratio := 1, current_allocation := 0, min_allocation := 3/5,
    max_allocation := 1 }

/-- A strategy with volatility `1` and bounds `[0, 1]`. -/
def sC : ProcessedStrategy :=
  { strategy_id := "c", name := "staking c", expected_return := 8/100,
    volatility := 1, risk_score := 1/5, tvl_score := 1, age_score := 1,
    sharpe_ratio := 1, current_allocation := 0, min_allocation := 0,
    max_allocation := 1 }

/-- A strategy with volatility `2` and bounds `[0, 1]`. -/
def sD : ProcessedStrategy :=
  { strategy_id := "d", name := "lending d", expected_return := 12/100,
    volatility := 2, risk_score := 1/5, tvl_score := 1, age_score := 1,
    sharpe_ratio := 1, current_allocation := 0, min_allocation := 0,
    max_allocation := 1 }

/-- A strategy whose display name is the empty string. -/
def sBlank : ProcessedStrategy :=
  { strategy_id := "blank", name := "", expected_return := 8/100,
    volatility := 1, risk_score := 1/5, tvl_score := 1, age_score := 1,
    sharpe_ratio := 1, current_allocation := 0, min_allocation := 0,
    max_allocation := 1 }

/-- A strategy whose display name is a single space (truthy in Python,
but without any word), with all numeric features in range. -/
def sSpace : ProcessedStrategy :=
  { strategy_id := "space", name := " ", expected_return := 0,
    volatility := 0, risk_score := 0, tvl_score := 0, age_score := 0,
    sharpe_ratio := 0, current_allocation := 0, min_allocation := 0,
    max_allocation := 1 }

/-- A well-formed staking strategy with mid-range features. -/
def sGood : ProcessedStrategy :=
  { strategy_id := "good", name := "staking good", expected_return := 1/10,
    volatility := 1/10, risk_score := 1/2, tvl_score := 1/2, age_score := 1/2,
    sharpe_ratio := 1, current_allocation := 0, min_allocation := 0,
    max_allocation := 1 }

/-- A single strategy with zero volatility for the frontier examples. -/
def sE : ProcessedStrategy :=
  { strategy_id := "e", name := "staking e", expected_return := 1/10,
    volatility := 0, risk_score := 1/5, tvl_score := 1, age_score := 1,
    sharpe_ratio := 1, current_allocation := 0, min_allocation := 0,
    max_allocation := 1 }

/-- The "staking" strategy of the rebalance example. -/
def sStaking : ProcessedStrategy :=
  { strategy_id := "staking", name := "staking s", expected_return := 8/100,
    volatility := 1/20, risk_score := 1/5, tvl_score := 1, age_score := 1,
    sharpe_ratio := 1, current_allocation := 1, min_allocation := 0,
    max_allocation := 1 }

/-- The "lending" strategy of the rebalance example. -/
def sLending : ProcessedStrategy :=
  { strategy_id := "lending", name := "lending s", expected_return := 12/100,
    volatility := 1/10, risk_score := 2/5, tvl_score := 1, age_score := 1,
    sharpe_ratio := 1, current_allocation := 0, min_allocation := 0,
    max_allocation := 1 }

/-- Oracle on which every solve fails to converge. -/
def oracleNone : SolverOracle := ⟨none, none, none, none, none⟩

/-- Oracle for the rebalance example: the max-Sharpe solve succeeds with
the half-half split. -/
def oracleHalf : SolverOracle := ⟨some [1/2, 1/2], none, none, none, none⟩

/-- A model of `np.sqrt` (values are irrelevant to the claims below). -/
def msqrt0 : ℚ → ℚ := fun _ => 0

/-- Optimization input with an infeasible-after-renormalization minimum
(`sB`), used by the bound-violation counterexample. -/
def inpC1 : OptimizationInput := ⟨[sA, sB], [[1, 3/10], [3/10, 1]], 2/100, 1000⟩

/-- Optimization input with distinct volatilities and loose bounds,
used by the risk-parity fallback counterexample. -/
def inpC3 : OptimizationInput := ⟨[sC, sD], [[1, 3/10], [3/10, 1]], 2/100, 1000⟩

/-- Optimization input of the rebalance example. -/
def inpC8 : OptimizationInput :=
  ⟨[sStaking, sLending], [[1, 3/10], [3/10, 1]], 2/100, 1000⟩

/-- Current allocations of the rebalance example: everything staked. -/
def curC8 : List (String × ℚ) := [("staking", 1)]

/-- The expected decrease trade of the rebalance example. -/
def tradeDecC8 : Trade := ⟨"staking", "decrease", 1, 1/2, -(1/2), 500⟩

/-- The expected increase trade of the rebalance example. -/
def tradeIncC8 : Trade := ⟨"lending", "increase", 0, 1/2, 1/2, 500⟩

/-- Single-strategy optimization input for the frontier claims. -/
def inpC7 : OptimizationInput := ⟨[sE], [[1]], 2/100, 1000⟩

/-- Per-target mean-variance solver that always succeeds with the full
single-strategy weight. -/
def mvOne : ℚ → Option (List ℚ) := fun _ => some [1]

/-- Per-target solver that never converges. -/
def solveNone : ℚ → Option (List ℚ) := fun _ => none

/-- A fresh agent state (as built by `YieldOptimizerAgent.__init__`). -/
def stEmpty : AgentState := ⟨false, none, none, [], 0, 0⟩

/-! ## Helper lemmas -/

theorem sum_map_div (l : List ℚ) (s : ℚ) :
    (l.map (fun x => x / s)).sum = l.sum / s := by
  induction l with
  | nil => simp
  | cons a t ih => simp [ih, add_div]

theorem sum_map_nonpos (l : List α) (f : α → ℚ) (h : ∀ a ∈ l, f a ≤ 0) :
    (l.map f).sum ≤ 0 := by
  induction l with
  | nil => simp
  | cons a t ih =>
    simp only [List.map_cons, List.sum_cons]
    have h1 := h a (List.mem_cons_self a t)
    have h2 := ih (fun b hb => h b (List.mem_cons_of_mem a hb))
    linarith

theorem sum_map_nonneg (l : List α) (f : α → ℚ) (h : ∀ a ∈ l, 0 ≤ f a) :
    0 ≤ (l.map f).sum := by
  induction l with
  | nil => simp
  | cons a t ih =>
    simp only [List.map_cons, List.sum_cons]
    have h1 := h a (List.mem_cons_self a t)
    have h2 := ih (fun b hb => h b (List.mem_cons_of_mem a hb))
    linarith

theorem sum_map_pos (l : List α) (f : α → ℚ) (h : ∀ a ∈ l, 0 ≤ f a)
    (a0 : α) (ha0 : a0 ∈ l) (hpos : 0 < f a0) : 0 < (l.map f).sum := by
  induction l with
  | nil => cases ha0
  | cons a t ih =>
    simp only [List.map_cons, List.sum_cons]
    have ht : 0 ≤ (t.map f).sum :=
      sum_map_nonneg t f (fun b hb => h b (List.mem_cons_of_mem a hb))
    rcases List.mem_cons.1 ha0 with rfl | hmem
    · linarith
    · have := ih (fun b hb => h b (List.mem_cons_of_mem a hb)) hmem
      have ha := h a (List.mem_cons_self a t)
      linarith

theorem exists_pos_of_one_le_sum (l : List α) (f : α → ℚ)
    (h : 1 ≤ (l.map f).sum) : ∃ a ∈ l, 0 < f a := by
  by_contra hcon
  push_neg at hcon
  have := sum_map_nonpos l f hcon
  linarith

theorem npClip_nonneg (x lo hi : ℚ) (h0 : 0 ≤ lo) (h1 : lo ≤ hi) :
    0 ≤ npClip x lo hi := by
  unfold npClip
  exact le_min (h0.trans (le_max_right x lo)) (h0.trans h1)

theorem npClip_pos (x lo hi : ℚ) (hx : 0 < x) (hhi : 0 < hi) :
    0 < npClip x lo hi := by
  unfold npClip
  exact lt_min (hx.trans_le (le_max_left x lo)) hhi

theorem clipList_map (f g h : ProcessedStrategy → ℚ) (l : List ProcessedStrategy) :
    clipList (l.map f) (l.map g) (l.map h) =
      l.map (fun s => npClip (f s) (g s) (h s)) := by
  induction l with
  | nil => simp [clipList]
  | cons a t ih => simp [clipList, ih]

theorem clipList_replicate_map (k : ℚ) (g h : ProcessedStrategy → ℚ)
    (l : List ProcessedStrategy) :
    clipList (List.replicate l.length k) (l.map g) (l.map h) =
      l.map (fun s => npClip k (g s) (h s)) := by
  induction l with
  | nil => simp [clipList]
  | cons a t ih => simp [clipList, ih, List.replicate_succ]

theorem renorm_sum_one (l : List ℚ) (h : l.sum ≠ 0) : (renorm l).sum = 1 := by
  unfold renorm
  rw [sum_map_div, div_self h]

/-- Under nonnegative pointwise-feasible bounds whose maximums sum to at
least 1 and a positive pre-clip vector, the clipped vector has positive
sum, hence its renormalization sums to exactly 1. -/
theorem renorm_clip_sum_one (l : List ProcessedStrategy) (f : ProcessedStrategy → ℚ)
    (hf : ∀ s ∈ l, 0 < f s)
    (hb : ∀ s ∈ l, 0 ≤ s.min_allocation ∧ s.min_allocation ≤ s.max_allocation)
    (hmax : 1 ≤ (l.map (·.max_allocation)).sum) :
    (renorm (l.map (fun s => npClip (f s) s.min_allocation s.max_allocation))).sum = 1 := by
  apply renorm_sum_one
  obtain ⟨s0, hs0, hpos⟩ := exists_pos_of_one_le_sum l (·.max_allocation) hmax
  have hsum : 0 < (l.map (fun s => npClip (f s) s.min_allocation s.max_allocation)).sum :=
    sum_map_pos l _
      (fun s hs => npClip_nonneg _ _ _ (hb s hs).1 (hb s hs).2)
      s0 hs0 (npClip_pos _ _ _ (hf s0 hs0) hpos)
  exact ne_of_gt hsum

theorem map_snd_zipWith_pair (l : List ProcessedStrategy) (w : List ℚ)
    (h : w.length = l.length) :
    (List.zipWith (fun s x => (s.strategy_id, x)) l w).map Prod.snd = w := by
  induction l generalizing w with
  | nil => cases w with
    | nil => simp
    | cons a t => simp at h
  | cons a t ih =>
    cases w with
    | nil => simp at h
    | cons b u =>
      simp only [List.zipWith_cons_cons, List.map_cons]
      simp only [List.length_cons, Nat.succ_inj] at h
      rw [ih u h]

/-- `optimize` on a nonempty strategy list: the allocation dictionary
pairs each strategy id with the corresponding entry of the chosen
weight vector. -/
theorem optimize_allocations (rb : PortfolioRebalancer) (inp : OptimizationInput)
    (methodArg : Option String) (oracle : SolverOracle) (msqrt : ℚ → ℚ)
    (hne : inp.strategies ≠ []) :
    (optimize rb inp methodArg oracle msqrt).strategy_allocations =
      List.zipWith (fun s w => (s.strategy_id, w)) inp.strategies
        (chooseWeights (methodArg.getD rb.method)
          (inp.strategies.map (·.expected_return))
          (inp.strategies.map (·.volatility))
          (inp.strategies.map (·.min_allocation))
          (inp.strategies.map (·.max_allocation))
          inp.correlation_matrix
          (covarianceMatrix (inp.strategies.map (·.volatility)) inp.correlation_matrix)
          inp.risk_free_rate oracle) := by
  have hlen : inp.strategies.length ≠ 0 := by
    simpa [List.length_eq_zero] using hne
  simp [optimize, hlen]

theorem startEqual_eq_map (l : List ProcessedStrategy) :
    startEqual l.length (l.map (·.min_allocation)) (l.map (·.max_allocation)) =
      renorm (l.map (fun s =>
        npClip ((1 : ℚ) / l.length) s.min_allocation s.max_allocation)) := by
  unfold startEqual
  rw [clipList_replicate_map]

theorem startInvVol_eq_map (l : List ProcessedStrategy) :
    startInvVol (l.map (·.volatility)) (l.map (·.min_allocation)) (l.map (·.max_allocation)) =
      renorm (l.map (fun s =>
        npClip (1 / s.volatility) s.min_allocation s.max_allocation)) := by
  unfold startInvVol
  rw [List.map_map]
  exact congrArg renorm (clipList_map _ _ _ l)

theorem renorm_map_length (l : List ProcessedStrategy) (f : ProcessedStrategy → ℚ) :
    (renorm (l.map f)).length = l.length := by
  simp [renorm]

theorem chooseWeights_maxSharpe (returns vols minW maxW : List ℚ)
    (corr cov : List (List ℚ)) (rf : ℚ) (oracle : SolverOracle) :
    chooseWeights "max_sharpe" returns vols minW maxW corr cov rf oracle =
      optimizeMaxSharpe returns cov minW maxW rf oracle.maxSharpe := by
  simp [chooseWeights]

theorem chooseWeights_minVariance (returns vols minW maxW : List ℚ)
    (corr cov : List (List ℚ)) (rf : ℚ) (oracle : SolverOracle) :
    chooseWeights "min_variance" returns vols minW maxW corr cov rf oracle =
      optimizeMinVariance cov minW maxW oracle.minVariance := by
  simp [chooseWeights]

theorem chooseWeights_riskParity (returns vols minW maxW : List ℚ)
    (corr cov : List (List ℚ)) (rf : ℚ) (oracle : SolverOracle) :
    chooseWeights "risk_parity" returns vols minW maxW corr cov rf oracle =
      optimizeRiskParity vols corr minW maxW oracle.riskParity := by
  simp [chooseWeights]

theorem chooseWeights_meanVariance (returns vols minW maxW : List ℚ)
    (corr cov : List (List ℚ)) (rf : ℚ) (oracle : SolverOracle) :
    chooseWeights "mean_variance" returns vols minW maxW corr cov rf oracle =
      optimizeMeanVariance returns cov minW maxW (listMean returns)
        oracle.meanVariance oracle.meanVarianceFB := by
  simp [chooseWeights]

/-! ## C3: fallback vectors on solver non-convergence -/

/-- C3 (amended): on solver non-convergence no error is raised, but the
fallback differs by objective: `max_sharpe` and `min_variance` return
the clipped renormalized equal-weight start; `risk_parity` returns the
clipped renormalized inverse-volatility start; `mean_variance` first
falls back to a max-Sharpe solve with risk-free rate `0.02` and only
returns the equal-weight start when that also fails. -/
theorem claim_c3_fallback (rb : PortfolioRebalancer) (inp : OptimizationInput)
    (oracle : SolverOracle) (msqrt : ℚ → ℚ) (hne : inp.strategies ≠ []) :
    (oracle.maxSharpe = none →
      (optimize rb inp (some "max_sharpe") oracle msqrt).strategy_allocations =
        List.zipWith (fun s w => (s.strategy_id, w)) inp.strategies
          (startEqual inp.strategies.length
            (inp.strategies.map (·.min_allocation))
            (inp.strategies.map (·.max_allocation)))) ∧
    (oracle.minVariance = none →
      (optimize rb inp (some "min_variance") oracle msqrt).strategy_allocations =
        List.zipWith (fun s w => (s.strategy_id, w)) inp.strategies
          (startEqual inp.strategies.length
            (inp.strategies.map (·.min_allocation))
            (inp.strategies.map (·.max_allocation)))) ∧
    (oracle.riskParity = none →
      (optimize rb inp (some "risk_parity") oracle msqrt).strategy_allocations =
        List.zipWith (fun s w => (s.strategy_id, w)) inp.strategies
          (startInvVol (inp.strategies.map (·.volatility))
            (inp.strategies.map (·.min_allocation))
            (inp.strategies.map (·.max_allocation)))) ∧
    (oracle.meanVariance = none → oracle.meanVarianceFB = none →
      (optimize rb inp (some "mean_variance") oracle msqrt).strategy_allocations =
        List.zipWith (fun s w => (s.strategy_id, w)) inp.strategies
          (startEqual inp.strategies.length
            (inp.strategies.map (·.min_allocation))
            (inp.strategies.map (·.max_allocation)))) := by
  refine ⟨?_, ?_, ?_, ?_⟩
  · intro h
    rw [optimize_allocations rb inp _ oracle msqrt hne]
    simp [chooseWeights, optimizeMaxSharpe, h]
  · intro h
    rw [optimize_allocations rb inp _ oracle msqrt hne]
    simp [chooseWeights, optimizeMinVariance, h]
  · intro h
    rw [optimize_allocations rb inp _ oracle msqrt hne]
    simp [chooseWeights, optimizeRiskParity, h]
  · intro h h2
    rw [optimize_allocations rb inp _ oracle msqrt hne]
    simp [chooseWeights, optimizeMeanVariance, optimizeMaxSharpe, h, h2]

/-- Counterexample for C3 as stated: for the `risk_parity` objective
with volatilities `1` and `2` and loose bounds, the non-convergence
fallback is the inverse-volatility vector `[2/3, 1/3]`, not the
equal-weight starting vector `[1/2, 1/2]`. -/
theorem claim_c3_counterexample :
    oracleNone.riskParity = none ∧
    (optimize {} inpC3 (some "risk_parity") oracleNone msqrt0).strategy_allocations =
      [("c", 2/3), ("d", 1/3)] ∧
    List.zipWith (fun s w => (s.strategy_id, w)) inpC3.strategies
      (startEqual inpC3.strategies.length
        (inpC3.strategies.map (·.min_allocation))
        (inpC3.strategies.map (·.max_allocation))) = [("c", 1/2), ("d", 1/2)] ∧
    ([("c", (2:ℚ)/3), ("d", 1/3)] : List (String × ℚ)) ≠ [("c", 1/2), ("d", 1/2)] := by
  refine ⟨rfl, ?_, ?_, by norm_num⟩
  · rw [optimize_allocations {} inpC3 _ oracleNone msqrt0 (by simp [inpC3]),
      Option.getD_some, chooseWeights_riskParity]
    norm_num [optimizeRiskParity, startInvVol, clipList, renorm,
      npClip, min_def, max_def, inpC3, sC, sD, oracleNone]
  · norm_num [startEqual, clipList, renorm, npClip, min_def, max_def, inpC3, sC, sD,
      List.replicate]

/-- Witness for the amended C3 at a concrete input (max-Sharpe solve
fails on `inpC3`). -/
theorem claim_c3_witness :
    (optimize {} inpC3 (some "max_sharpe") oracleNone msqrt0).strategy_allocations =
      List.zipWith (fun s w => (s.strategy_id, w)) inpC3.strategies
        (startEqual inpC3.strategies.length
          (inpC3.strategies.map (·.min_allocation))
          (inpC3.strategies.map (·.max_allocation))) :=
  (claim_c3_fallback {} inpC3 oracleNone msqrt0 (by simp [inpC3])).1 rfl

/-! ## C1: bounds and sum of the optimized weights -/

/-- C1 (amended): for a nonempty strategy list with feasible
nonnegative bounds, `optimize` under each supported objective returns
the solver's weight vector unchanged on convergence (so bounds and the
sum-to-one constraint hold exactly when the solver's output satisfies
them), and on non-convergence returns a fallback vector whose weights
sum exactly to `1`; the fallback can however violate a per-strategy
bound (see the counterexample). -/
theorem claim_c1_optimize_weight_bounds (rb : PortfolioRebalancer)
    (inp : OptimizationInput) (oracle : SolverOracle) (msqrt : ℚ → ℚ)
    (hne : inp.strategies ≠ [])
    (hb : ∀ s ∈ inp.strategies, 0 ≤ s.min_allocation ∧ s.min_allocation ≤ s.max_allocation)
    (_hmin : (inp.strategies.map (·.min_allocation)).sum ≤ 1)
    (hmax : 1 ≤ (inp.strategies.map (·.max_allocation)).sum) :
    (oracle.maxSharpe = none →
      (((optimize rb inp (some "max_sharpe") oracle msqrt).strategy_allocations).map
        Prod.snd).sum = 1) ∧
    (∀ x, oracle.maxSharpe = some x → x.length = inp.strategies.length →
      ((optimize rb inp (some "max_sharpe") oracle msqrt).strategy_allocations).map
        Prod.snd = x) ∧
    (oracle.minVariance = none →
      (((optimize rb inp (some "min_variance") oracle msqrt).strategy_allocations).map
        Prod.snd).sum = 1) ∧
    (∀ x, oracle.minVariance = some x → x.length = inp.strategies.length →
      ((optimize rb inp (some "min_variance") oracle msqrt).strategy_allocations).map
        Prod.snd = x) ∧
    ((∀ s ∈ inp.strategies, 0 < s.volatility) → oracle.riskParity = none →
      (((optimize rb inp (some "risk_parity") oracle msqrt).strategy_allocations).map
        Prod.snd).sum = 1) ∧
    (∀ x, oracle.riskParity = some x → x.length = inp.strategies.length →
      ((optimize rb inp (some "risk_parity") oracle msqrt).strategy_allocations).map
        Prod.snd = x) ∧
    (oracle.meanVariance = none → oracle.meanVarianceFB = none →
      (((optimize rb inp (some "mean_variance") oracle msqrt).strategy_allocations).map
        Prod.snd).sum = 1) ∧
    (∀ x, oracle.meanVariance = some x → x.length = inp.strategies.length →
      ((optimize rb inp (some "mean_variance") oracle msqrt).strategy_allocations).map
        Prod.snd = x) := by
  have hzero : (0 : ℚ) < inp.strategies.length := by
    have : inp.strategies.length ≠ 0 := by simpa [List.length_eq_zero] using hne
    exact_mod_cast Nat.pos_of_ne_zero this
  have hEqualSum :
      ((List.zipWith (fun s w => (s.strategy_id, w)) inp.strategies
        (startEqual inp.strategies.length
          (inp.strategies.map (·.min_allocation))
          (inp.strategies.map (·.max_allocation)))).map Prod.snd).sum = 1 := by
    rw [startEqual_eq_map, map_snd_zipWith_pair _ _ (renorm_map_length _ _)]
    exact renorm_clip_sum_one inp.strategies _
      (fun s _ => one_div_pos.mpr hzero) hb hmax
  have hInvSum : (∀ s ∈ inp.strategies, 0 < s.volatility) →
      ((List.zipWith (fun s w => (s.strategy_id, w)) inp.strategies
        (startInvVol (inp.strategies.map (·.volatility))
          (inp.strategies.map (·.min_allocation))
          (inp.strategies.map (·.max_allocation)))).map Prod.snd).sum = 1 := by
    intro hvol
    rw [startInvVol_eq_map, map_snd_zipWith_pair _ _ (renorm_map_length _ _)]
    exact renorm_clip_sum_one inp.strategies _
      (fun s hs => one_div_pos.mpr (hvol s hs)) hb hmax
  have hc3 := claim_c3_fallback rb inp oracle msqrt hne
  refine ⟨fun h => by rw [hc3.1 h]; exact hEqualSum, ?_,
    fun h => by rw [hc3.2.1 h]; exact hEqualSum, ?_,
    fun hvol h => by rw [hc3.2.2.1 h]; exact hInvSum hvol, ?_,
    fun h h2 => by rw [hc3.2.2.2 h h2]; exact hEqualSum, ?_⟩
  · intro x hx hlen
    rw [optimize_allocations rb inp _ oracle msqrt hne, Option.getD_some,
      chooseWeights_maxSharpe, hx]
    exact map_snd_zipWith_pair _ _ hlen
  · intro x hx hlen
    rw [optimize_allocations rb inp _ oracle msqrt hne, Option.getD_some,
      chooseWeights_minVariance, hx]
    exact map_snd_zipWith_pair _ _ hlen
  · intro x hx hlen
    rw [optimize_allocations rb inp _ oracle msqrt hne, Option.getD_some,
      chooseWeights_riskParity, hx]
    exact map_snd_zipWith_pair _ _ hlen
  · intro x hx hlen
    rw [optimize_allocations rb inp _ oracle msqrt hne, Option.getD_some,
      chooseWeights_meanVariance, hx]
    exact map_snd_zipWith_pair _ _ hlen

/-- Counterexample for C1 as stated: with feasible bounds
(`[0,1]` and `[3/5,1]`, minimums summing to `3/5 ≤ 1`, maximums to
`2 ≥ 1`) and objective `max_sharpe`, the non-convergence fallback
renormalizes the clipped equal-weight vector to `[5/11, 6/11]`, whose
second weight `6/11` violates the minimum bound `3/5`. -/
theorem claim_c1_counterexample :
    (0 ≤ sA.min_allocation ∧ sA.min_allocation ≤ sA.max_allocation) ∧
    (0 ≤ sB.min_allocation ∧ sB.min_allocation ≤ sB.max_allocation) ∧
    (inpC1.strategies.map (·.min_allocation)).sum ≤ 1 ∧
    1 ≤ (inpC1.strategies.map (·.max_allocation)).sum ∧
    oracleNone.maxSharpe = none ∧
    (optimize {} inpC1 (some "max_sharpe") oracleNone msqrt0).strategy_allocations =
      [("a", 5/11), ("b", 6/11)] ∧
    ¬(sB.min_allocation ≤ 6/11) := by
  refine ⟨by norm_num [sA], by norm_num [sB], by norm_num [inpC1, sA, sB],
    by norm_num [inpC1, sA, sB], rfl, ?_, by norm_num [sB]⟩
  norm_num [optimize, chooseWeights, optimizeMaxSharpe, startEqual, clipList, renorm,
    npClip, min_def, max_def, inpC1, sA, sB, oracleNone]

/-- Witness for the amended C1: on `inpC1` with a failing max-Sharpe
solve, the returned weights sum to `1`. -/
theorem claim_c1_witness :
    (((optimize {} inpC1 (some "max_sharpe") oracleNone msqrt0).strategy_allocations).map
      Prod.snd).sum = 1 :=
  (claim_c1_optimize_weight_bounds {} inpC1 oracleNone msqrt0
    (by simp [inpC1])
    (by
      intro s hs
      simp only [inpC1, List.mem_cons, List.mem_singleton, List.not_mem_nil, or_false] at hs
      rcases hs with rfl | rfl
      · norm_num [sA]
      · norm_num [sB])
    (by norm_num [inpC1, sA, sB])
    (by norm_num [inpC1, sA, sB])).1 rfl

/-! ## C10: optimize on an empty strategy list -/

/-- C10: calling `optimize` with an empty strategy list raises nothing
and returns an empty allocation map with zero expected return,
volatility and Sharpe ratio, tagged with the requested (effective)
optimization method. -/
theorem claim_c10_empty_optimize (rb : PortfolioRebalancer)
    (methodArg : Option String) (oracle : SolverOracle) (msqrt : ℚ → ℚ)
    (corr : List (List ℚ)) (rf amt : ℚ) :
    optimize rb ⟨[], corr, rf, amt⟩ methodArg oracle msqrt =
      { strategy_allocations := [], expected_return := 0,
        expected_volatility := 0, sharpe_ratio := 0,
        optimization_method := methodArg.getD rb.method } := by
  simp [optimize]

/-! ## C6: strategy filtering -/

/-- C6: `_filter_strategies` keeps exactly the strategies whose
volatility does not exceed the configured ceiling, whose `tvl_score` is
positive and whose `age_score` is at least `0.25`; survivors are kept
unchanged in their original order (the result is a sublist), and the
function is total (never raises). -/
theorem claim_c6_filter (maxVolatility : ℚ) (l : List ProcessedStrategy) :
    (∀ s, s ∈ filterStrategies maxVolatility l ↔
      s ∈ l ∧ ¬(s.volatility > maxVolatility ∨ s.tvl_score ≤ 0 ∨ s.age_score < 1/4)) ∧
    (filterStrategies maxVolatility l).Sublist l ∧
    filterStrategies maxVolatility l = l.filter
      (fun s => decide (¬(s.volatility > maxVolatility ∨ s.tvl_score ≤ 0 ∨ s.age_score < 1/4))) := by
  have heq : filterStrategies maxVolatility l = l.filter
      (fun s => decide (¬(s.volatility > maxVolatility ∨ s.tvl_score ≤ 0 ∨ s.age_score < 1/4))) := by
    induction l with
    | nil => simp [filterStrategies]
    | cons a t ih =>
      unfold filterStrategies
      split_ifs with h1 h2 h3
      · rw [ih, List.filter_cons_of_neg]
        simp only [decide_eq_true_eq]
        tauto
      · rw [ih, List.filter_cons_of_neg]
        simp only [decide_eq_true_eq]
        tauto
      · rw [ih, List.filter_cons_of_neg]
        simp only [decide_eq_true_eq]
        tauto
      · rw [ih, List.filter_cons_of_pos]
        simp only [decide_eq_true_eq]
        tauto
  refine ⟨?_, ?_, heq⟩
  · intro s
    rw [heq, List.mem_filter]
    simp only [decide_eq_true_eq]
  · rw [heq]
    exact List.filter_sublist l

/-! ## C4: heuristic correlation matrix -/

theorem exceptMap_ok (f : α → Except String β) (g : α → β) (l : List α)
    (h : ∀ a ∈ l, f a = .ok (g a)) : exceptMap f l = .ok (l.map g) := by
  induction l with
  | nil => simp [exceptMap]
  | cons a t ih =>
    have ha := h a (List.mem_cons_self a t)
    have ht := ih (fun b hb => h b (List.mem_cons_of_mem a hb))
    simp [exceptMap, ha, ht]

theorem corrEntry_ok (s1 s2 : ProcessedStrategy) (i j : ℕ)
    (h1 : firstWord s1.name ≠ none) (h2 : firstWord s2.name ≠ none) :
    corrEntry s1 s2 i j = .ok (corrVal s1 s2 i j) := by
  obtain ⟨w1, hw1⟩ := Option.ne_none_iff_exists'.1 h1
  obtain ⟨w2, hw2⟩ := Option.ne_none_iff_exists'.1 h2
  by_cases hij : i = j
  · simp [corrEntry, corrVal, hij]
  · simp [corrEntry, corrVal, hij, hw1, hw2]

theorem snd_mem_of_mem_enum {α : Type} {p : ℕ × α} {l : List α}
    (hp : p ∈ l.enum) : p.2 ∈ l := by
  rw [List.enum_eq_zip_range] at hp
  exact (List.of_mem_zip hp).2

/-- C4 (amended): provided every strategy name contains a
non-whitespace word (an empty word list makes the type extraction
raise `IndexError` as soon as there are two strategies), the heuristic
correlation matrix is `n×n`, symmetric, has unit diagonal, off-diagonal
entries `0.7` exactly when the two strategies share a first name word
(the code's notion of type) and `0.3` otherwise, and all entries lie in
`[-1, 1]`. -/
theorem claim_c4_heuristic_correlation (l : List ProcessedStrategy)
    (hw : ∀ s ∈ l, firstWord s.name ≠ none) :
    ∃ M, buildCorrelationHeuristic l = .ok M ∧
      M.length = l.length ∧
      (∀ row ∈ M, row.length = l.length) ∧
      (∀ i j (hi : i < l.length) (hj : j < l.length),
        matEntry M i j = matEntry M j i ∧
        (i = j → matEntry M i j = 1) ∧
        (i ≠ j → matEntry M i j =
          (if firstWord (l.get ⟨i, hi⟩).name = firstWord (l.get ⟨j, hj⟩).name
           then 7/10 else 3/10)) ∧
        -1 ≤ matEntry M i j ∧ matEntry M i j ≤ 1) := by
  refine ⟨l.enum.map (fun p => l.enum.map (fun q => corrVal p.2 q.2 p.1 q.1)),
    ?_, by simp, ?_, ?_⟩
  · apply exceptMap_ok
    intro p hp
    apply exceptMap_ok
    intro q hq
    exact corrEntry_ok p.2 q.2 p.1 q.1
      (hw p.2 (snd_mem_of_mem_enum hp)) (hw q.2 (snd_mem_of_mem_enum hq))
  · intro row hrow
    obtain ⟨p, _, rfl⟩ := List.mem_map.1 hrow
    simp
  · intro i j hi hj
    have hentry : ∀ (a b : ℕ) (ha : a < l.length) (hb : b < l.length),
        matEntry (l.enum.map (fun p => l.enum.map (fun q => corrVal p.2 q.2 p.1 q.1))) a b =
          corrVal (l.get ⟨a, ha⟩) (l.get ⟨b, hb⟩) a b := by
      intro a b ha hb
      have ha2 : a < (l.enum.map (fun p => l.enum.map (fun q => corrVal p.2 q.2 p.1 q.1))).length := by
        simpa using ha
      unfold matEntry
      rw [List.getD_eq_getElem _ _ ha2]
      simp only [List.getElem_map, List.getElem_enum]
      have hb2 : b < (l.enum.map (fun q => corrVal l[a] q.2 a q.1)).length := by
        simpa using hb
      rw [List.getD_eq_getElem _ _ hb2]
      simp [List.getElem_enum]
    rw [hentry i j hi hj, hentry j i hj hi]
    refine ⟨?_, ?_, ?_, ?_⟩
    · by_cases hij : i = j
      · subst hij
        rfl
      · simp only [corrVal, if_neg hij, if_neg (Ne.symm hij)]
        by_cases hf : firstWord (l.get ⟨i, hi⟩).name = firstWord (l.get ⟨j, hj⟩).name
        · rw [if_pos hf, if_pos hf.symm]
        · rw [if_neg hf, if_neg (fun h => hf h.symm)]
    · intro hij
      simp [corrVal, hij]
    · intro hij
      simp [corrVal, hij]
    · unfold corrVal
      split_ifs <;> norm_num

/-- Counterexample for C4 as stated: with two strategies one of which
has an empty display name, the heuristic path raises `IndexError`
instead of returning a matrix. -/
theorem claim_c4_counterexample :
    buildCorrelationHeuristic [sBlank, sB] =
      .error "IndexError: list index out of range" := by
  simp +decide [buildCorrelationHeuristic, exceptMap, corrEntry, sBlank, sB, List.enum,
    show firstWord "" = none from by decide]

/-- Witness for the amended C4 on two strategies with distinct types. -/
theorem claim_c4_witness :
    ∃ M, buildCorrelationHeuristic [sA, sB] = .ok M ∧
      M.length = ([sA, sB] : List ProcessedStrategy).length ∧
      (∀ row ∈ M, row.length = ([sA, sB] : List ProcessedStrategy).length) ∧
      (∀ i j (hi : i < ([sA, sB] : List ProcessedStrategy).length)
          (hj : j < ([sA, sB] : List ProcessedStrategy).length),
        matEntry M i j = matEntry M j i ∧
        (i = j → matEntry M i j = 1) ∧
        (i ≠ j → matEntry M i j =
          (if firstWord (([sA, sB] : List ProcessedStrategy).get ⟨i, hi⟩).name =
              firstWord (([sA, sB] : List ProcessedStrategy).get ⟨j, hj⟩).name
           then 7/10 else 3/10)) ∧
        -1 ≤ matEntry M i j ∧ matEntry M i j ≤ 1) :=
  claim_c4_heuristic_correlation [sA, sB] (by
    intro s hs
    simp only [List.mem_cons, List.not_mem_nil, or_false] at hs
    rcases hs with rfl | rfl
    · decide
    · decide)

/-! ## C5: per-strategy risk scores -/

theorem typeMultiplier_bounds (t : List Char) :
    0 ≤ typeMultiplier t ∧ typeMultiplier t ≤ 1 := by
  unfold typeMultiplier
  split_ifs <;> norm_num

/-- C5 (amended): for every strategy with `volatility ≥ 0`, `risk_score`,
`age_score` and `tvl_score` in `[0,1]`, whose name is empty or contains
a non-whitespace word (otherwise the type extraction raises
`IndexError`), `assess_strategy_risk` succeeds; each of the four
sub-scores lies in `[0,25]`, the overall score is their sum and lies in
`[0,100]`, and exactly one of the four risk levels applies. -/
theorem claim_c5_risk_scores (s : ProcessedStrategy)
    (hvol : 0 ≤ s.volatility)
    (hrisk0 : 0 ≤ s.risk_score) (_hrisk1 : s.risk_score ≤ 1)
    (hage0 : 0 ≤ s.age_score) (hage1 : s.age_score ≤ 1)
    (htvl0 : 0 ≤ s.tvl_score) (htvl1 : s.tvl_score ≤ 1)
    (hname : s.name = "" ∨ pyWordsAux [] (s.name.data.map Char.toLower) ≠ []) :
    ∃ ra, assessStrategyRisk s = .ok ra ∧
      ra.components.length = 4 ∧
      (∀ c ∈ ra.components, 0 ≤ c.2 ∧ c.2 ≤ 25) ∧
      ra.overall_risk_score = (ra.components.map Prod.snd).sum ∧
      0 ≤ ra.overall_risk_score ∧ ra.overall_risk_score ≤ 100 ∧
      ((ra.overall_risk_score < 25 ∧ ra.risk_level = "low") ∨
       (25 ≤ ra.overall_risk_score ∧ ra.overall_risk_score < 50 ∧
         ra.risk_level = "medium") ∨
       (50 ≤ ra.overall_risk_score ∧ ra.overall_risk_score < 75 ∧
         ra.risk_level = "high") ∨
       (75 ≤ ra.overall_risk_score ∧ ra.risk_level = "very_high")) := by
  have htype : ∃ t, strategyType s.name = .ok t := by
    by_cases hn : s.name = ""
    · exact ⟨"unknown".data, by simp [strategyType, hn]⟩
    · have hw : pyWordsAux [] (s.name.data.map Char.toLower) ≠ [] := by
        rcases hname with h | h
        · exact absurd h hn
        · exact h
      obtain ⟨w, rest, hww⟩ := List.exists_cons_of_ne_nil hw
      exact ⟨w, by simp [strategyType, hn, hww]⟩
  obtain ⟨t, ht⟩ := htype
  have hsc : calcSmartContractRisk s = .ok (25 * (1 - s.age_score) * typeMultiplier t) := by
    simp [calcSmartContractRisk, ht]
  have hmul := typeMultiplier_bounds t
  set volRisk := calcVolatilityRisk s.volatility with hvolRisk
  set scRisk := 25 * (1 - s.age_score) * typeMultiplier t with hscRisk
  set liqRisk := calcLiquidityRisk s.tvl_score with hliqRisk
  set spRisk := calcStrategySpecificRisk s with hspRisk
  have hvolB : 0 ≤ volRisk ∧ volRisk ≤ 25 := by
    constructor
    · exact le_min (by norm_num) (by nlinarith)
    · exact min_le_left _ _
  have hscB : 0 ≤ scRisk ∧ scRisk ≤ 25 := by
    constructor
    · have h1 : 0 ≤ 25 * (1 - s.age_score) := by linarith
      exact mul_nonneg h1 hmul.1
    · nlinarith [hmul.1, hmul.2]
  have hliqB : 0 ≤ liqRisk ∧ liqRisk ≤ 25 := by
    unfold calcLiquidityRisk at hliqRisk
    constructor <;> [nlinarith; nlinarith]
  have hspB : 0 ≤ spRisk ∧ spRisk ≤ 25 := by
    rw [hspRisk]
    unfold calcStrategySpecificRisk
    constructor
    · apply le_min (by norm_num)
      split_ifs <;> nlinarith
    · exact min_le_left _ _
  refine ⟨{ strategy_id := s.strategy_id,
            overall_risk_score := volRisk + scRisk + liqRisk + spRisk,
            risk_level := getRiskLevel (volRisk + scRisk + liqRisk + spRisk),
            components := [("volatility_risk", volRisk),
                           ("smart_contract_risk", scRisk),
                           ("liquidity_risk", liqRisk),
                           ("strategy_specific_risk", spRisk)] }, ?_, by simp, ?_, ?_, ?_, ?_, ?_⟩
  · simp only [assessStrategyRisk, hsc, hvolRisk, hscRisk, hliqRisk, hspRisk]
  · intro c hc
    simp only [List.mem_cons, List.not_mem_nil, or_false] at hc
    rcases hc with rfl | rfl | rfl | rfl
    · exact hvolB
    · exact hscB
    · exact hliqB
    · exact hspB
  · simp
    ring
  · simp only []
    have := hvolB.1
    have := hscB.1
    have := hliqB.1
    have := hspB.1
    linarith
  · simp only []
    have := hvolB.2
    have := hscB.2
    have := hliqB.2
    have := hspB.2
    linarith
  · simp only []
    set x := volRisk + scRisk + liqRisk + spRisk with hx
    unfold getRiskLevel
    by_cases h1 : x < 25
    · rw [if_pos h1]
      exact Or.inl ⟨h1, rfl⟩
    · rw [if_neg h1]
      by_cases h2 : x < 50
      · rw [if_pos h2]
        exact Or.inr (Or.inl ⟨le_of_not_lt h1, h2, rfl⟩)
      · rw [if_neg h2]
        by_cases h3 : x < 75
        · rw [if_pos h3]
          exact Or.inr (Or.inr (Or.inl ⟨le_of_not_lt h2, h3, rfl⟩))
        · rw [if_neg h3]
          exact Or.inr (Or.inr (Or.inr ⟨le_of_not_lt h3, rfl⟩))

/-- Counterexample for C5 as stated: a strategy whose display name is a
single space satisfies every numeric hypothesis of the claim, yet
`assess_strategy_risk` raises `IndexError` inside the smart-contract
component (`" ".split()` is empty but `" "` is truthy), so no sub-score
is produced at all. -/
theorem claim_c5_counterexample :
    0 ≤ sSpace.volatility ∧
    (0 ≤ sSpace.risk_score ∧ sSpace.risk_score ≤ 1) ∧
    (0 ≤ sSpace.age_score ∧ sSpace.age_score ≤ 1) ∧
    (0 ≤ sSpace.tvl_score ∧ sSpace.tvl_score ≤ 1) ∧
    assessStrategyRisk sSpace = .error "IndexError: list index out of range" := by
  refine ⟨by norm_num [sSpace], by norm_num [sSpace], by norm_num [sSpace],
    by norm_num [sSpace], ?_⟩
  simp +decide [assessStrategyRisk, calcSmartContractRisk, strategyType, sSpace,
    show (pyWordsAux [] [' ']).head? = none from by decide]

/-- Witness for the amended C5 on a well-formed staking strategy. -/
theorem claim_c5_witness :
    ∃ ra, assessStrategyRisk sGood = .ok ra ∧
      ra.components.length = 4 ∧
      (∀ c ∈ ra.components, 0 ≤ c.2 ∧ c.2 ≤ 25) ∧
      ra.overall_risk_score = (ra.components.map Prod.snd).sum ∧
      0 ≤ ra.overall_risk_score ∧ ra.overall_risk_score ≤ 100 ∧
      ((ra.overall_risk_score < 25 ∧ ra.risk_level = "low") ∨
       (25 ≤ ra.overall_risk_score ∧ ra.overall_risk_score < 50 ∧
         ra.risk_level = "medium") ∨
       (50 ≤ ra.overall_risk_score ∧ ra.overall_risk_score < 75 ∧
         ra.risk_level = "high") ∨
       (75 ≤ ra.overall_risk_score ∧ ra.risk_level = "very_high")) :=
  claim_c5_risk_scores sGood (by norm_num [sGood]) (by norm_num [sGood])
    (by norm_num [sGood]) (by norm_num [sGood]) (by norm_num [sGood])
    (by norm_num [sGood]) (by norm_num [sGood]) (Or.inr (by decide))

/-! ## C2: the allocation-update operation -/

/-- C2: the exposed `update_allocations` operation (the `POST
/allocation` handler validating before delegating to
`YieldOptimizerAgent.update_allocations`) rejects any map whose weights
sum outside `[0.99, 1.01]`, leaving the agent state unchanged, and for
sums within the band it replaces `state.current_allocations` with the
new map. -/
theorem claim_c2_update_allocations (st : AgentState) (m : List (String × ℚ)) :
    ((m.map Prod.snd).sum < 99/100 ∨ 101/100 < (m.map Prod.snd).sum →
      runUpdateAllocation st m = (st, false)) ∧
    (99/100 ≤ (m.map Prod.snd).sum → (m.map Prod.snd).sum ≤ 101/100 →
      runUpdateAllocation st m = ({ st with current_allocations := m }, true)) := by
  constructor
  · intro hout
    have hcond : ¬(99/100 ≤ (m.map Prod.snd).sum ∧ (m.map Prod.snd).sum ≤ 101/100) := by
      rcases hout with h | h
      · intro ⟨h1, _⟩; linarith
      · intro ⟨_, h2⟩; linarith
    simp [runUpdateAllocation, updateAllocationEndpoint, hcond]
  · intro h1 h2
    have hcond : 99/100 ≤ (m.map Prod.snd).sum ∧ (m.map Prod.snd).sum ≤ 101/100 := ⟨h1, h2⟩
    simp [runUpdateAllocation, updateAllocationEndpoint, agentUpdateAllocations, hcond]

/-- Witness for C2: a map summing to `0.5` is rejected and the fresh
agent state is unchanged. -/
theorem claim_c2_witness :
    runUpdateAllocation stEmpty [("a", 1/2)] = (stEmpty, false) :=
  (claim_c2_update_allocations stEmpty [("a", 1/2)]).1 (Or.inl (by norm_num))

/-! ## C7: efficient frontier -/

theorem foldl_min_le (xs : List ℚ) (a : ℚ) : xs.foldl min a ≤ a := by
  induction xs generalizing a with
  | nil => exact le_refl a
  | cons x t ih => exact (ih (min a x)).trans (min_le_left a x)

theorem foldl_min_le_mem (xs : List ℚ) (a : ℚ) : ∀ y ∈ xs, xs.foldl min a ≤ y := by
  induction xs generalizing a with
  | nil => intro y hy; cases hy
  | cons x t ih =>
    intro y hy
    rcases List.mem_cons.1 hy with rfl | hy2
    · exact (foldl_min_le t (min a y)).trans (min_le_right a y)
    · exact ih (min a x) y hy2

theorem le_foldl_max (xs : List ℚ) (a : ℚ) : a ≤ xs.foldl max a := by
  induction xs generalizing a with
  | nil => exact le_refl a
  | cons x t ih => exact (le_max_left a x).trans (ih (max a x))

theorem le_foldl_max_mem (xs : List ℚ) (a : ℚ) : ∀ y ∈ xs, y ≤ xs.foldl max a := by
  induction xs generalizing a with
  | nil => intro y hy; cases hy
  | cons x t ih =>
    intro y hy
    rcases List.mem_cons.1 hy with rfl | hy2
    · exact (le_max_right a y).trans (le_foldl_max t (max a y))
    · exact ih (max a x) y hy2

theorem npMin_le (l : List ℚ) : ∀ y ∈ l, npMin l ≤ y := by
  cases l with
  | nil => intro y hy; cases hy
  | cons x t =>
    intro y hy
    rcases List.mem_cons.1 hy with rfl | hy2
    · exact foldl_min_le t y
    · exact foldl_min_le_mem t x y hy2

theorem le_npMax (l : List ℚ) : ∀ y ∈ l, y ≤ npMax l := by
  cases l with
  | nil => intro y hy; cases hy
  | cons x t =>
    intro y hy
    rcases List.mem_cons.1 hy with rfl | hy2
    · exact le_foldl_max t y
    · exact le_foldl_max_mem t x y hy2

theorem dot_le_max (w r : List ℚ) (M : ℚ) (hlen : w.length = r.length)
    (hw : ∀ x ∈ w, 0 ≤ x) (hr : ∀ y ∈ r, y ≤ M) : dot w r ≤ M * w.sum := by
  induction w generalizing r with
  | nil => simp [dot]
  | cons x xs ih =>
    cases r with
    | nil => simp at hlen
    | cons y ys =>
      have hx := hw x (List.mem_cons_self x xs)
      have hy := hr y (List.mem_cons_self y ys)
      have hstep : x * y ≤ x * M := mul_le_mul_of_nonneg_left hy hx
      have hrest := ih ys (by simpa using hlen)
        (fun z hz => hw z (List.mem_cons_of_mem x hz))
        (fun z hz => hr z (List.mem_cons_of_mem y hz))
      simp only [dot, List.zipWith_cons_cons, List.sum_cons, List.sum_cons] at hrest ⊢
      nlinarith

theorem min_le_dot (w r : List ℚ) (m : ℚ) (hlen : w.length = r.length)
    (hw : ∀ x ∈ w, 0 ≤ x) (hr : ∀ y ∈ r, m ≤ y) : m * w.sum ≤ dot w r := by
  induction w generalizing r with
  | nil => simp [dot]
  | cons x xs ih =>
    cases r with
    | nil => simp at hlen
    | cons y ys =>
      have hx := hw x (List.mem_cons_self x xs)
      have hy := hr y (List.mem_cons_self y ys)
      have hstep : x * m ≤ x * y := mul_le_mul_of_nonneg_left hy hx
      have hrest := ih ys (by simpa using hlen)
        (fun z hz => hw z (List.mem_cons_of_mem x hz))
        (fun z hz => hr z (List.mem_cons_of_mem y hz))
      simp only [dot, List.zipWith_cons_cons, List.sum_cons, List.sum_cons] at hrest ⊢
      nlinarith

theorem linspace_length (a b : ℚ) (k : ℕ) : (linspace a b k).length = k := by
  unfold linspace
  split_ifs with h0 h1
  · simp [h0]
  · simp [h1]
  · rw [List.length_map, List.length_range]

/-- C7 (amended): the frontier samples `num_points` targets linearly
spaced between the extreme single-strategy expected returns and maps
each through a mean-variance solve; a failed solve does NOT omit the
point — the fallback chain (max-Sharpe at risk-free rate `0.02`, then
the clipped equal-weight start) still produces one — so the result has
exactly `num_points` entries (in particular between `0` and
`num_points`); each point's Sharpe ratio is `(return − rf)/volatility`
when the volatility is positive and `0` otherwise; and whenever the
weight vector produced at a target is nonnegative, of matching length
and sums to `1`, the corresponding portfolio return lies within the
`[min, max]` single-strategy expected-return range. -/
theorem claim_c7_frontier (inp : OptimizationInput) (numPoints : ℕ)
    (mvSolve msSolve : ℚ → Option (List ℚ)) (msqrt : ℚ → ℚ)
    (hne : inp.strategies ≠ []) :
    generateEfficientFrontier inp numPoints mvSolve msSolve msqrt =
      (linspace (npMin (inp.strategies.map (·.expected_return)))
        (npMax (inp.strategies.map (·.expected_return))) numPoints).map
        (frontierPoint inp mvSolve msSolve msqrt) ∧
    (generateEfficientFrontier inp numPoints mvSolve msSolve msqrt).length = numPoints ∧
    (∀ p ∈ generateEfficientFrontier inp numPoints mvSolve msSolve msqrt,
      (0 < p.volatility →
        p.sharpe_ratio = (p.ret - inp.risk_free_rate) / p.volatility) ∧
      (p.volatility ≤ 0 → p.sharpe_ratio = 0)) ∧
    (∀ t ∈ linspace (npMin (inp.strategies.map (·.expected_return)))
        (npMax (inp.strategies.map (·.expected_return))) numPoints,
      ∀ w, w = optimizeMeanVariance (inp.strategies.map (·.expected_return))
          (covarianceMatrix (inp.strategies.map (·.volatility)) inp.correlation_matrix)
          (inp.strategies.map (·.min_allocation))
          (inp.strategies.map (·.max_allocation)) t (mvSolve t) (msSolve t) →
        (∀ x ∈ w, 0 ≤ x) → w.length = inp.strategies.length → w.sum = 1 →
        npMin (inp.strategies.map (·.expected_return)) ≤
            dot w (inp.strategies.map (·.expected_return)) ∧
          dot w (inp.strategies.map (·.expected_return)) ≤
            npMax (inp.strategies.map (·.expected_return))) := by
  have hlen : inp.strategies.length ≠ 0 := by simpa [List.length_eq_zero] using hne
  have hfirst : generateEfficientFrontier inp numPoints mvSolve msSolve msqrt =
      (linspace (npMin (inp.strategies.map (·.expected_return)))
        (npMax (inp.strategies.map (·.expected_return))) numPoints).map
        (frontierPoint inp mvSolve msSolve msqrt) := by
    simp [generateEfficientFrontier, hlen]
  refine ⟨hfirst, by rw [hfirst]; simp [linspace_length], ?_, ?_⟩
  · intro p hp
    rw [hfirst] at hp
    obtain ⟨t, _, rfl⟩ := List.mem_map.1 hp
    constructor
    · intro hv
      simp only [frontierPoint] at hv ⊢
      rw [if_pos hv]
    · intro hv
      simp only [frontierPoint] at hv ⊢
      rw [if_neg (not_lt.2 hv)]
  · intro t _ w _ hnn hwlen hsum
    have hrlen : w.length = (inp.strategies.map (·.expected_return)).length := by
      simpa using hwlen
    constructor
    · have := min_le_dot w (inp.strategies.map (·.expected_return))
        (npMin (inp.strategies.map (·.expected_return))) hrlen hnn
        (npMin_le (inp.strategies.map (·.expected_return)))
      rwa [hsum, mul_one] at this
    · have := dot_le_max w (inp.strategies.map (·.expected_return))
        (npMax (inp.strategies.map (·.expected_return))) hrlen hnn
        (le_npMax (inp.strategies.map (·.expected_return)))
      rwa [hsum, mul_one] at this

/-- Counterexample for C7 as stated: with a single strategy and
`num_points = 1`, every solve at the sampled target fails, yet the
frontier still contains one point (built from the fallback weights)
instead of omitting it. -/
theorem claim_c7_counterexample :
    solveNone ((1:ℚ)/10) = none ∧
    generateEfficientFrontier inpC7 1 solveNone solveNone id =
      [{ ret := 1/10, volatility := 0, sharpe_ratio := 0, weights := [("e", 1)] }] := by
  refine ⟨rfl, ?_⟩
  norm_num [generateEfficientFrontier, linspace, npMin, npMax, frontierPoint,
    optimizeMeanVariance, optimizeMaxSharpe, startEqual, clipList, renorm, npClip,
    min_def, max_def, covarianceMatrix, dot, matVec, inpC7, sE, solveNone]

/-- Witness for the amended C7: a two-point frontier on a single
strategy has exactly two entries. -/
theorem claim_c7_witness :
    (generateEfficientFrontier inpC7 2 mvOne solveNone msqrt0).length = 2 :=
  (claim_c7_frontier inpC7 2 mvOne solveNone msqrt0 (by simp [inpC7])).2.1

/-! ## C8: rebalance trade list -/

theorem mem_buildTrades (cur target : List (String × ℚ)) (thr tv : ℚ)
    (l : List ProcessedStrategy) (t : Trade) :
    t ∈ buildTrades cur target thr tv l ↔
      ∃ s ∈ l, thr < |getW target s.strategy_id - getW cur s.strategy_id| ∧
        t = mkTrade cur target tv s := by
  induction l with
  | nil => simp [buildTrades]
  | cons a rest ih =>
    by_cases h : |getW target a.strategy_id - getW cur a.strategy_id| > thr
    · simp only [buildTrades, if_pos h, List.mem_cons, ih]
      constructor
      · rintro (rfl | ⟨s, hs, hts, rfl⟩)
        · exact ⟨a, Or.inl rfl, h, rfl⟩
        · exact ⟨s, Or.inr hs, hts, rfl⟩
      · rintro ⟨s, rfl | hs2, hts, rfl⟩
        · exact Or.inl rfl
        · exact Or.inr ⟨s, hs2, hts, rfl⟩
    · simp only [buildTrades, if_neg h, ih]
      constructor
      · rintro ⟨s, hs, hts, rfl⟩
        exact ⟨s, List.mem_cons_of_mem a hs, hts, rfl⟩
      · rintro ⟨s, hs, hts, rfl⟩
        rcases List.mem_cons.1 hs with rfl | hs2
        · exact absurd hts h
        · exact ⟨s, hs2, hts, rfl⟩

theorem recommendRebalance_trades (rb : PortfolioRebalancer)
    (cur : List (String × ℚ)) (inp : OptimizationInput) (tv : ℚ)
    (oracle : SolverOracle) (msqrt : ℚ → ℚ) (hne : inp.strategies ≠ []) :
    (recommendRebalance rb cur inp tv oracle msqrt).trades =
      List.insertionSort tradeLe
        (buildTrades cur (optimize rb inp none oracle msqrt).strategy_allocations
          rb.min_rebalance_threshold tv inp.strategies) := by
  have hlen : inp.strategies.length ≠ 0 := by simpa [List.length_eq_zero] using hne
  simp [recommendRebalance, hlen]

theorem tradeLe_imp (a b : Trade) (h : tradeLe a b) :
    (a.action = "increase" → b.action = "increase") ∧
      (a.action = b.action → |b.weight_change| ≤ |a.weight_change|) := by
  rcases h with ⟨ha, hb⟩ | ⟨heq, hle⟩
  · constructor
    · intro hact
      simp [tradeInc, hact] at ha
    · intro hacteq
      rw [show tradeInc a = tradeInc b from by simp [tradeInc, hacteq], hb] at ha
      cases ha
  · constructor
    · intro hact
      rw [show tradeInc a = true from by simp [tradeInc, hact]] at heq
      simpa [tradeInc] using heq.symm
    · intro _
      exact hle

/-- C8: the trade list of `recommend_rebalance` contains an entry for
exactly those eligible strategies whose target weight differs from the
current weight by more than the rebalance threshold, ordered with all
decreases before all increases and by descending magnitude within each
group; and on the spec's example (current all-staking, target
half-half, threshold `0.05`) it is exactly the staking decrease
followed by the lending increase. -/
theorem claim_c8_trades :
    (∀ (rb : PortfolioRebalancer) (cur : List (String × ℚ))
        (inp : OptimizationInput) (tv : ℚ) (oracle : SolverOracle) (msqrt : ℚ → ℚ),
      (recommendRebalance rb cur inp tv oracle msqrt).trades.Perm
        (buildTrades cur (optimize rb inp none oracle msqrt).strategy_allocations
          rb.min_rebalance_threshold tv inp.strategies) ∧
      (∀ sid : String,
        (∃ t ∈ (recommendRebalance rb cur inp tv oracle msqrt).trades,
          t.strategy_id = sid) ↔
        (∃ s ∈ inp.strategies, s.strategy_id = sid ∧
          rb.min_rebalance_threshold <
            |getW (optimize rb inp none oracle msqrt).strategy_allocations sid -
              getW cur sid|)) ∧
      (recommendRebalance rb cur inp tv oracle msqrt).trades.Pairwise
        (fun a b => (a.action = "increase" → b.action = "increase") ∧
          (a.action = b.action → |b.weight_change| ≤ |a.weight_change|))) ∧
    (recommendRebalance {} curC8 inpC8 1000 oracleHalf msqrt0).trades =
      [tradeDecC8, tradeIncC8] := by
  constructor
  · intro rb cur inp tv oracle msqrt
    by_cases hne : inp.strategies = []
    · have htr : (recommendRebalance rb cur inp tv oracle msqrt).trades = [] := by
        simp [recommendRebalance, hne]
      rw [htr]
      refine ⟨by simp [hne, buildTrades], ?_, by simp⟩
      intro sid
      simp [hne]
    · rw [recommendRebalance_trades rb cur inp tv oracle msqrt hne]
      have hperm := List.perm_insertionSort tradeLe
        (buildTrades cur (optimize rb inp none oracle msqrt).strategy_allocations
          rb.min_rebalance_threshold tv inp.strategies)
      refine ⟨hperm, ?_, ?_⟩
      · intro sid
        constructor
        · rintro ⟨t, ht, rfl⟩
          obtain ⟨s, hs, hts, rfl⟩ :=
            (mem_buildTrades _ _ _ _ _ _).1 (hperm.mem_iff.1 ht)
          exact ⟨s, hs, rfl, by simpa [mkTrade] using hts⟩
        · rintro ⟨s, hs, rfl, hgt⟩
          refine ⟨mkTrade cur
            (optimize rb inp none oracle msqrt).strategy_allocations tv s,
            hperm.mem_iff.2 ((mem_buildTrades _ _ _ _ _ _).2
              ⟨s, hs, by simpa [mkTrade] using hgt, rfl⟩), rfl⟩
      · have hsorted := List.sorted_insertionSort tradeLe
          (buildTrades cur (optimize rb inp none oracle msqrt).strategy_allocations
            rb.min_rebalance_threshold tv inp.strategies)
        exact List.Pairwise.imp (fun h => tradeLe_imp _ _ h) hsorted
  · norm_num [recommendRebalance, optimize, chooseWeights, optimizeMaxSharpe, buildTrades,
      mkTrade, getW, curC8, inpC8, sStaking, sLending, oracleHalf, msqrt0, tradeDecC8,
      tradeIncC8, List.insertionSort, List.orderedInsert, tradeLe, tradeInc,
      covarianceMatrix, dot, matVec, renorm, clipList, npClip, min_def, max_def, listMean,
      List.lookup, show ("lending" == "staking") = false from by decide,
      show ("increase" == "increase") = true from by decide,
      show ("decrease" == "increase") = false from by decide,
      show |(1:ℚ)/2| = 1/2 from by rw [abs_of_nonneg] ; norm_num]

/-! ## C9: untrained prediction fallback -/

/-- C9: on a nonempty recent series, the untrained predictor falls back
to the mean-reversion heuristic: the 7-day forecast is the average of
the current value and the 7-day moving average, the 30-day forecast is
the average of the current value and the overall mean, and the
confidence is `0.5`. -/
theorem claim_c9_untrained_prediction
    (trainedPath : String → List ℚ → YieldPrediction)
    (strategyId : String) (apys : List ℚ) (h : apys ≠ []) :
    (predict false trainedPath strategyId apys).predicted_apy_7d =
      (apys.getLastD 0 + listMean (lastN 7 apys)) / 2 ∧
    (predict false trainedPath strategyId apys).predicted_apy_30d =
      (apys.getLastD 0 + listMean apys) / 2 ∧
    (predict false trainedPath strategyId apys).confidence = 1/2 := by
  have hlen : apys.length ≠ 0 := by simpa [List.length_eq_zero] using h
  refine ⟨?_, ?_, ?_⟩ <;> simp [predict, simplePrediction, hlen]

/-- Witness for C9 on the series `[0.1, 0.2]`. -/
theorem claim_c9_witness :
    (predict false (fun s l => simplePrediction s l) "x" [1/10, 2/10]).predicted_apy_7d =
      (([1/10, 2/10] : List ℚ).getLastD 0 + listMean (lastN 7 [1/10, 2/10])) / 2 ∧
    (predict false (fun s l => simplePrediction s l) "x" [1/10, 2/10]).predicted_apy_30d =
      (([1/10, 2/10] : List ℚ).getLastD 0 + listMean [1/10, 2/10]) / 2 ∧
    (predict false (fun s l => simplePrediction s l) "x" [1/10, 2/10]).confidence = 1/2 :=
  claim_c9_untrained_prediction (fun s l => simplePrediction s l) "x" [1/10, 2/10]
    (by simp)

end CasperYield
